import Mathlib

/-!
# Verification of the leChef Convex backend

Shallow embedding of the backend functions in `src/convex` (recipes.ts,
weeklyPlans.ts, ai.ts, auth.ts, schema.ts).  The hosted document store is
modelled as lists of rows (one list per table, in insertion order); document
ids are natural numbers; `Date.now()` timestamps are passed explicitly;
the authenticated identity is an `Option String` (the `subject`).
Fallible handlers return `Except String _` (a thrown `Error` message is the
`.error` payload).
-/

/-! ## Data model (schema.ts) -/

/-- A row of the `recipes` table (schema.ts).  `id` models the document `_id`,
`imageStorageId` a storage id. -/
structure Recipe where
  id : Nat
  userId : String
  title : String
  description : Option String
  cuisine : List String
  skillLevel : String
  cookTime : Int
  prepTime : Int
  cost : String
  canFreeze : Bool
  canReheat : Bool
  servings : Int
  createdAt : Int
  updatedAt : Int
  slug : Option String
  isPublic : Option Bool
  imageStorageId : Option Nat
deriving DecidableEq

/-- Step type: `v.union(v.literal("preparation"), v.literal("cooking"))`. -/
inductive StepType where
  | preparation
  | cooking
deriving DecidableEq

/-- A row of the `recipeSteps` table (schema.ts). -/
structure RecipeStepRow where
  id : Nat
  recipeId : Nat
  type : StepType
  stepNumber : Nat
  instruction : String
  order : Nat
deriving DecidableEq

/-- A row of the `ingredients` table (schema.ts). -/
structure IngredientRow where
  id : Nat
  recipeId : Nat
  name : String
  amount : String
  order : Nat
deriving DecidableEq

/-- One entry of a weekly plan's `days` array (schema.ts):
`{ dayOfWeek: v.number(), recipeId: v.optional(v.id("recipes")) }`. -/
structure DayEntry where
  dayOfWeek : Int
  recipeId : Option Nat
deriving DecidableEq

/-- A row of the `weeklyPlans` table (schema.ts). -/
structure WeeklyPlan where
  id : Nat
  userId : String
  weekStartDate : Int
  days : List DayEntry
  createdAt : Int
  updatedAt : Int
deriving DecidableEq

/-- The document store: one list of rows per table (in insertion order),
the file-storage URL map, and the next fresh document id. -/
structure DB where
  recipes : List Recipe
  ingredients : List IngredientRow
  recipeSteps : List RecipeStepRow
  weeklyPlans : List WeeklyPlan
  storageUrls : List (Nat × String)
  nextId : Nat
deriving DecidableEq

/-- `ctx.db.get` on a recipe id. -/
def getRecipe (db : DB) (id : Nat) : Option Recipe :=
  db.recipes.find? (fun r => r.id == id)

/-- `ctx.db.get` on a weekly-plan id. -/
def getPlan (db : DB) (id : Nat) : Option WeeklyPlan :=
  db.weeklyPlans.find? (fun p => p.id == id)

/-- `ctx.db.query("weeklyPlans").withIndex("by_user_and_week", ...).first()`. -/
def findPlanByUserWeek (db : DB) (uid : String) (ws : Int) : Option WeeklyPlan :=
  db.weeklyPlans.find? (fun p => p.userId == uid && p.weekStartDate == ws)

/-- `ctx.db.query("ingredients").withIndex("by_recipe", ...).order("asc").collect()`:
the rows of the recipe, in stored (creation) order. -/
def ingredientsByRecipe (db : DB) (rid : Nat) : List IngredientRow :=
  db.ingredients.filter (fun i => i.recipeId == rid)

/-- `ctx.db.query("recipeSteps").withIndex("by_recipe", ...).order("asc").collect()`. -/
def stepsByRecipe (db : DB) (rid : Nat) : List RecipeStepRow :=
  db.recipeSteps.filter (fun s => s.recipeId == rid)

/-- `ctx.storage.getUrl` (null when absent). -/
def getStorageUrl (db : DB) : Option Nat → Option String
  | none => none
  | some sid => (db.storageUrls.find? (fun p => p.1 == sid)).map (fun p => p.2)

/-! ## auth.ts -/

/-- `getUserId` (auth.ts): throws "Not authenticated" when there is no
identity, otherwise returns `identity.subject`. -/
def getUserId : Option String → Except String String
  | none => .error "Not authenticated"
  | some subject => .ok subject

/-! ## weeklyPlans.ts: generateShoppingList -/

/-- One element of the `allIngredients` array built inside
`generateShoppingList` (weeklyPlans.ts, lines 471-494). -/
structure ShoppingEntry where
  name : String
  amount : String
  recipeTitle : String
deriving DecidableEq

/-- The value type of the `ingredientMap` in `generateShoppingList`. -/
structure Agg where
  amounts : List String
  recipes : List String
deriving DecidableEq

/-- One element of the returned `items` array of `generateShoppingList`. -/
structure ShoppingItem where
  name : String
  amount : String
  recipes : List String
  recipeCount : Nat
deriving DecidableEq

/-- The return value of `generateShoppingList`.  The empty-plan early return
carries no `planId` field, hence the `Option`. -/
structure ShoppingList where
  items : List ShoppingItem
  totalItems : Nat
  planId : Option Nat
deriving DecidableEq

/-- `plan.days.filter(d => d.recipeId !== undefined).map(d => d.recipeId!)`. -/
def planRecipeIds (plan : WeeklyPlan) : List Nat :=
  plan.days.filterMap (fun d => d.recipeId)

/-- The `allIngredients` collection loop of `generateShoppingList`:
for each referenced recipe id (skipping dangling ids), every ingredient row
of that recipe, tagged with the recipe's title.  `ingredient.amount || ""`
is the identity on strings (`""` is falsy and maps to `""`). -/
def allIngredients (db : DB) (recipeIds : List Nat) : List ShoppingEntry :=
  recipeIds.foldr
    (fun rid rest =>
      (match getRecipe db rid with
        | none => []
        | some r =>
            (ingredientsByRecipe db rid).map
              (fun i => ⟨i.name, i.amount, r.title⟩)) ++ rest)
    []

/-- JS `String.prototype.toLowerCase`, modelled character-wise. -/
def jsToLower (s : String) : String := ⟨s.data.map Char.toLower⟩

/-- JS `String.prototype.trim`: drop whitespace from both ends. -/
def jsTrim (s : String) : String :=
  ⟨((s.data.dropWhile Char.isWhitespace).reverse.dropWhile Char.isWhitespace).reverse⟩

/-- `ingredient.name.toLowerCase().trim()`. -/
def normalizeName (s : String) : String := jsTrim (jsToLower s)

/-- The map key of an entry. -/
def entryKey (e : ShoppingEntry) : String := normalizeName e.name

/-- One iteration of the aggregation loop of `generateShoppingList`
(weeklyPlans.ts, lines 502-519), on the insertion-ordered association list
modelling the JS `Map`.  On a hit the amount is pushed when non-empty and
the recipe title is pushed when not already present; on a miss a fresh
entry is appended (JS `Map` preserves insertion order). -/
def addEntry : List (String × Agg) → ShoppingEntry → List (String × Agg)
  | [], e =>
      [(entryKey e, ⟨if e.amount = "" then [] else [e.amount], [e.recipeTitle]⟩)]
  | (k, agg) :: rest, e =>
      if k = entryKey e then
        (k, ⟨agg.amounts ++ (if e.amount = "" then [] else [e.amount]),
             if e.recipeTitle ∈ agg.recipes then agg.recipes
             else agg.recipes ++ [e.recipeTitle]⟩) :: rest
      else
        (k, agg) :: addEntry rest e

/-- The whole aggregation loop: fold `addEntry` over the entries. -/
def buildMap (es : List ShoppingEntry) : List (String × Agg) :=
  es.foldl addEntry []

/-- `name.charAt(0).toUpperCase() + name.slice(1)`. -/
def capitalizeFirst (s : String) : String :=
  match s.data with
  | [] => ""
  | c :: cs => String.mk (c.toUpper :: cs)

/-- The conversion of one map entry to an `items` element
(weeklyPlans.ts, lines 522-533). -/
def itemOfPair (p : String × Agg) : ShoppingItem :=
  ⟨capitalizeFirst p.1,
   if p.2.amounts.length > 0 then String.intercalate " + " p.2.amounts else "",
   p.2.recipes,
   p.2.recipes.length⟩

/-- Stable insertion used to model `items.sort((a, b) => a.name.localeCompare(b.name))`;
the locale order is modelled by the lexicographic order on `String`. -/
def insertItem (x : ShoppingItem) : List ShoppingItem → List ShoppingItem
  | [] => [x]
  | y :: ys => if y.name ≤ x.name then y :: insertItem x ys else x :: y :: ys

/-- Stable sort by `name` modelling `Array.prototype.sort` with the
`localeCompare` comparator. -/
def sortItems (l : List ShoppingItem) : List ShoppingItem :=
  l.foldr insertItem []

/-- `generateShoppingList` (weeklyPlans.ts, lines 447-544). -/
def generateShoppingList (db : DB) (identity : Option String) (planId : Nat) :
    Except String (Option ShoppingList) :=
  match getUserId identity with
  | .error e => .error e
  | .ok userId =>
    match getPlan db planId with
    | none => .ok none
    | some plan =>
      if plan.userId ≠ userId then
        .ok none
      else
        let recipeIds := planRecipeIds plan
        if recipeIds = [] then
          .ok (some ⟨[], 0, none⟩)
        else
          let es := allIngredients db recipeIds
          let items := sortItems ((buildMap es).map itemOfPair)
          .ok (some ⟨items, items.length, some planId⟩)

/-! ## Specification-side characterization of the aggregation -/

/-- The entries of `es` that fall in the merge class of key `k`. -/
def entriesFor (es : List ShoppingEntry) (k : String) : List ShoppingEntry :=
  es.filter (fun e => entryKey e == k)

/-- The non-empty amount strings of the class of `k`, in encounter order. -/
def specAmounts (es : List ShoppingEntry) (k : String) : List String :=
  ((entriesFor es k).map (fun e => e.amount)).filter (fun a => a != "")

/-- `push t` unless already present: one step of the title deduplication. -/
def pushUnique (acc : List String) (t : String) : List String :=
  if t ∈ acc then acc else acc ++ [t]

/-- The titles of the recipes contributing to the class of `k`, first
occurrences kept, in encounter order. -/
def specRecipes (es : List ShoppingEntry) (k : String) : List String :=
  ((entriesFor es k).map (fun e => e.recipeTitle)).foldl pushUnique []

/-- The shopping-list item that the class of key `k` must produce. -/
def specItem (es : List ShoppingEntry) (k : String) : ShoppingItem :=
  ⟨capitalizeFirst k,
   if (specAmounts es k).length > 0 then String.intercalate " + " (specAmounts es k) else "",
   specRecipes es k,
   (specRecipes es k).length⟩

/-- Invariant of the aggregation loop: after processing the entries `p`,
the association list `m` has pairwise distinct keys, its keys are exactly
the normalized names occurring in `p`, and each entry's aggregate matches
the specification over `p`. -/
def MapInv (p : List ShoppingEntry) (m : List (String × Agg)) : Prop :=
  (m.map Prod.fst).Nodup ∧
  (∀ k, k ∈ m.map Prod.fst ↔ ∃ e ∈ p, entryKey e = k) ∧
  (∀ q ∈ m, q.2.amounts = specAmounts p q.1 ∧ q.2.recipes = specRecipes p q.1)

theorem specAmounts_append_one (p : List ShoppingEntry) (e : ShoppingEntry) (k : String) :
    specAmounts (p ++ [e]) k =
      specAmounts p k ++
        (if entryKey e = k then (if e.amount = "" then [] else [e.amount]) else []) := by
  by_cases h : entryKey e = k
  · have hb : (entryKey e == k) = true := by simp [h]
    by_cases ha : e.amount = ""
    · simp [specAmounts, entriesFor, List.filter_append, hb, h, ha]
    · simp [specAmounts, entriesFor, List.filter_append, hb, h, ha]
  · have hb : (entryKey e == k) = false := by simp [h]
    simp [specAmounts, entriesFor, List.filter_append, hb, h]

theorem specRecipes_append_one (p : List ShoppingEntry) (e : ShoppingEntry) (k : String) :
    specRecipes (p ++ [e]) k =
      if entryKey e = k then pushUnique (specRecipes p k) e.recipeTitle
      else specRecipes p k := by
  by_cases h : entryKey e = k
  · have hb : (entryKey e == k) = true := by simp [h]
    simp [specRecipes, entriesFor, List.filter_append, List.foldl_append, hb, h, pushUnique]
  · have hb : (entryKey e == k) = false := by simp [h]
    simp [specRecipes, entriesFor, List.filter_append, List.foldl_append, hb, h]

/-- The aggregate created on a map miss. -/
def newAgg (e : ShoppingEntry) : Agg :=
  ⟨if e.amount = "" then [] else [e.amount], [e.recipeTitle]⟩

/-- The aggregate update performed on a map hit. -/
def updAgg (a : Agg) (e : ShoppingEntry) : Agg :=
  ⟨a.amounts ++ (if e.amount = "" then [] else [e.amount]),
   if e.recipeTitle ∈ a.recipes then a.recipes else a.recipes ++ [e.recipeTitle]⟩

theorem addEntry_of_key_not_mem (m : List (String × Agg)) (e : ShoppingEntry)
    (h : entryKey e ∉ m.map Prod.fst) :
    addEntry m e = m ++ [(entryKey e, newAgg e)] := by
  induction m with
  | nil => rfl
  | cons q rest ih =>
    obtain ⟨k, a⟩ := q
    simp only [List.map_cons, List.mem_cons, not_or] at h
    obtain ⟨h1, h2⟩ := h
    have hk : ¬ (k = entryKey e) := fun hh => h1 hh.symm
    simp [addEntry, hk, ih h2]

theorem addEntry_of_key_mem (m : List (String × Agg)) (e : ShoppingEntry)
    (h : entryKey e ∈ m.map Prod.fst) :
    ∃ m1 a m2, m = m1 ++ (entryKey e, a) :: m2 ∧ entryKey e ∉ m1.map Prod.fst ∧
      addEntry m e = m1 ++ (entryKey e, updAgg a e) :: m2 := by
  induction m with
  | nil => simp at h
  | cons q rest ih =>
    obtain ⟨k, a⟩ := q
    by_cases hk : k = entryKey e
    · subst hk
      exact ⟨[], a, rest, by simp, by simp, by simp [addEntry, updAgg]⟩
    · have h' : entryKey e ∈ rest.map Prod.fst := by
        rcases (by simpa using h : entryKey e = k ∨ entryKey e ∈ rest.map Prod.fst) with h0 | h0
        · exact absurd h0.symm hk
        · exact h0
      obtain ⟨m1, b, m2, hm, hnot, hadd⟩ := ih h'
      refine ⟨(k, a) :: m1, b, m2, by simp [hm], ?_, by simp [addEntry, hk, hadd]⟩
      simp only [List.map_cons, List.mem_cons, not_or]
      exact ⟨fun hh => hk hh.symm, hnot⟩

theorem mapInv_addEntry {p : List ShoppingEntry} {m : List (String × Agg)}
    {e : ShoppingEntry} (h : MapInv p m) : MapInv (p ++ [e]) (addEntry m e) := by
  obtain ⟨hnd, hmem, hpt⟩ := h
  by_cases hk : entryKey e ∈ m.map Prod.fst
  · obtain ⟨m1, a, m2, hm, hnot, hadd⟩ := addEntry_of_key_mem m e hk
    have hkeys : (addEntry m e).map Prod.fst = m.map Prod.fst := by
      rw [hadd, hm]; simp
    refine ⟨by rw [hkeys]; exact hnd, ?_, ?_⟩
    · intro k'
      rw [hkeys, hmem k']
      constructor
      · intro ⟨e', he', hke'⟩; exact ⟨e', by simp [he'], hke'⟩
      · rintro ⟨e', he', hke'⟩
        rcases (by simpa using he' : e' ∈ p ∨ e' = e) with h0 | h0
        · exact ⟨e', h0, hke'⟩
        · subst h0; rw [← hke']; exact (hmem (entryKey e')).mp hk |> fun ⟨x, hx, hkx⟩ => ⟨x, hx, hkx⟩
      -- unreachable fallthrough kept simple below
    · intro q hq
      rw [hadd] at hq
      have hndm : ((m1 ++ (entryKey e, a) :: m2).map Prod.fst).Nodup := by rw [← hm]; exact hnd
      have hkeym2 : entryKey e ∉ m2.map Prod.fst := by
        simp only [List.map_append, List.map_cons] at hndm
        have := (List.nodup_append.mp hndm).2.1
        exact (List.nodup_cons.mp this).1
      rcases (by simpa using hq :
          q ∈ m1 ∨ q = (entryKey e, updAgg a e) ∨ q ∈ m2) with h1 | h1 | h1
      · have hq1 : q.1 ≠ entryKey e := by
          intro hh
          exact hnot (hh ▸ List.mem_map_of_mem Prod.fst h1)
        have hqm : q ∈ m := by rw [hm]; simp [h1]
        have hspec := hpt q hqm
        have hne : entryKey e ≠ q.1 := fun hh => hq1 hh.symm
        rw [specAmounts_append_one, specRecipes_append_one]
        simp [hne, hspec.1, hspec.2]
      · subst h1
        have haq : (entryKey e, a) ∈ m := by rw [hm]; simp
        have hsp := hpt (entryKey e, a) haq
        have hsp1 : a.amounts = specAmounts p (entryKey e) := hsp.1
        have hsp2 : a.recipes = specRecipes p (entryKey e) := hsp.2
        constructor
        · show (updAgg a e).amounts = specAmounts (p ++ [e]) (entryKey e)
          rw [specAmounts_append_one]
          simp [updAgg, hsp1]
        · show (updAgg a e).recipes = specRecipes (p ++ [e]) (entryKey e)
          rw [specRecipes_append_one]
          simp [updAgg, pushUnique, hsp2]
      · have hq1 : q.1 ≠ entryKey e := by
          intro hh
          exact hkeym2 (hh ▸ List.mem_map_of_mem Prod.fst h1)
        have hqm : q ∈ m := by rw [hm]; simp [h1]
        have hspec := hpt q hqm
        have hne : entryKey e ≠ q.1 := fun hh => hq1 hh.symm
        rw [specAmounts_append_one, specRecipes_append_one]
        simp [hne, hspec.1, hspec.2]
  · rw [addEntry_of_key_not_mem m e hk]
    have hnone : ∀ e' ∈ p, entryKey e' ≠ entryKey e := by
      intro e' he' hh
      exact hk ((hmem (entryKey e)).mpr ⟨e', he', hh⟩)
    have hfil : entriesFor p (entryKey e) = [] := by
      refine List.filter_eq_nil_iff.mpr ?_
      intro e' he'
      simp [hnone e' he']
    have hamt : specAmounts p (entryKey e) = [] := by
      simp [specAmounts, hfil]
    have hrec : specRecipes p (entryKey e) = [] := by
      simp [specRecipes, hfil]
    refine ⟨?_, ?_, ?_⟩
    · simp only [List.map_append, List.map_cons, List.map_nil]
      rw [List.nodup_append]
      exact ⟨hnd, by simp, by simpa using fun hh => hk hh⟩
    · intro k'
      simp only [List.map_append, List.map_cons, List.map_nil, List.mem_append,
        List.mem_singleton]
      constructor
      · rintro (h0 | h0)
        · obtain ⟨e', he', hke'⟩ := (hmem k').mp h0
          exact ⟨e', by simp [he'], hke'⟩
        · exact ⟨e, by simp, h0.symm⟩
      · rintro ⟨e', he', hke'⟩
        rcases (by simpa using he' : e' ∈ p ∨ e' = e) with h0 | h0
        · exact Or.inl ((hmem k').mpr ⟨e', h0, hke'⟩)
        · subst h0; exact Or.inr hke'.symm
    · intro q hq
      rcases (by simpa using hq : q ∈ m ∨ q = (entryKey e, newAgg e)) with h1 | h1
      · have hq1 : q.1 ≠ entryKey e := by
          intro hh
          exact hk (hh ▸ List.mem_map_of_mem Prod.fst h1)
        have hspec := hpt q h1
        have hne : entryKey e ≠ q.1 := fun hh => hq1 hh.symm
        rw [specAmounts_append_one, specRecipes_append_one]
        simp [hne, hspec.1, hspec.2]
      · subst h1
        constructor
        · show (newAgg e).amounts = specAmounts (p ++ [e]) (entryKey e)
          rw [specAmounts_append_one]
          simp [newAgg, hamt]
        · show (newAgg e).recipes = specRecipes (p ++ [e]) (entryKey e)
          rw [specRecipes_append_one]
          simp [newAgg, hrec, pushUnique]

theorem mapInv_foldl : ∀ (es p : List ShoppingEntry) (m : List (String × Agg)),
    MapInv p m → MapInv (p ++ es) (es.foldl addEntry m)
  | [], p, m, h => by simpa using h
  | e :: es, p, m, h => by
    have h2 := mapInv_foldl es (p ++ [e]) (addEntry m e) (mapInv_addEntry h)
    simpa [List.append_assoc] using h2

theorem mapInv_buildMap (es : List ShoppingEntry) : MapInv es (buildMap es) := by
  have h0 : MapInv [] ([] : List (String × Agg)) := ⟨by simp, by simp, by simp⟩
  simpa [buildMap] using mapInv_foldl es [] [] h0

theorem assocList_eq_keys_map {l : List (String × Agg)} {g : String → Agg}
    (h : ∀ q ∈ l, q.2 = g q.1) :
    l = (l.map Prod.fst).map (fun k => (k, g k)) := by
  induction l with
  | nil => rfl
  | cons q t ih =>
    obtain ⟨k, a⟩ := q
    have h1 : a = g k := h (k, a) (by simp)
    simp only [List.map_cons]
    rw [← ih (fun q hq => h q (by simp [hq])), ← h1]

/-- The sort order of the `items` array: ascending by `name`. -/
def itemLe (a b : ShoppingItem) : Prop := a.name ≤ b.name

theorem insertItem_perm (x : ShoppingItem) (l : List ShoppingItem) :
    (insertItem x l).Perm (x :: l) := by
  induction l with
  | nil => exact List.Perm.refl _
  | cons y ys ih =>
    by_cases h : y.name ≤ x.name
    · rw [insertItem, if_pos h]
      exact (List.Perm.cons y ih).trans (List.Perm.swap x y ys)
    · rw [insertItem, if_neg h]

theorem sortItems_perm (l : List ShoppingItem) : (sortItems l).Perm l := by
  induction l with
  | nil => exact List.Perm.refl _
  | cons x xs ih =>
    have h1 : sortItems (x :: xs) = insertItem x (sortItems xs) := rfl
    rw [h1]
    exact (insertItem_perm _ _).trans (List.Perm.cons x ih)

theorem mem_insertItem {x z : ShoppingItem} {l : List ShoppingItem}
    (h : z ∈ insertItem x l) : z = x ∨ z ∈ l := by
  have := (insertItem_perm x l).mem_iff.mp h
  simpa using this

theorem insertItem_sorted {x : ShoppingItem} {l : List ShoppingItem}
    (h : l.Pairwise itemLe) : (insertItem x l).Pairwise itemLe := by
  induction l with
  | nil => simp [insertItem, itemLe]
  | cons y ys ih =>
    rcases List.pairwise_cons.mp h with ⟨hy, hys⟩
    by_cases hc : y.name ≤ x.name
    · rw [insertItem, if_pos hc]
      refine List.pairwise_cons.mpr ⟨?_, ih hys⟩
      intro z hz
      rcases mem_insertItem hz with rfl | hz'
      · exact hc
      · exact hy z hz'
    · rw [insertItem, if_neg hc]
      have hxy : x.name ≤ y.name := le_of_not_le hc
      refine List.pairwise_cons.mpr ⟨?_, h⟩
      intro z hz
      rcases List.mem_cons.mp hz with rfl | hz'
      · exact hxy
      · exact le_trans hxy (hy z hz')

theorem sortItems_sorted (l : List ShoppingItem) : (sortItems l).Pairwise itemLe := by
  induction l with
  | nil => simp [sortItems]
  | cons x xs ih => exact insertItem_sorted ih

theorem generateShoppingList_owned {db : DB} {uid : String} {planId : Nat}
    {plan : WeeklyPlan} (hp : getPlan db planId = some plan) (hu : plan.userId = uid) :
    generateShoppingList db (some uid) planId =
      .ok (some (if planRecipeIds plan = [] then ⟨[], 0, none⟩
        else
          ⟨sortItems ((buildMap (allIngredients db (planRecipeIds plan))).map itemOfPair),
           (sortItems ((buildMap (allIngredients db (planRecipeIds plan))).map itemOfPair)).length,
           some planId⟩)) := by
  by_cases he : planRecipeIds plan = []
  · simp [generateShoppingList, getUserId, hp, hu, he]
  · simp [generateShoppingList, getUserId, hp, hu, he]

/-- Shared grouping lemma about `generateShoppingList`, used by the claims
about the shopping-list aggregator. -/
theorem generateShoppingList_master (db : DB) (uid : String) (planId : Nat)
    (plan : WeeklyPlan) (hp : getPlan db planId = some plan) (hu : plan.userId = uid) :
    ∃ out : ShoppingList,
      generateShoppingList db (some uid) planId = .ok (some out) ∧
      out.totalItems = out.items.length ∧
      out.items.Pairwise itemLe ∧
      ∃ ks : List String,
        ks.Nodup ∧
        (∀ k, k ∈ ks ↔ ∃ e ∈ allIngredients db (planRecipeIds plan), entryKey e = k) ∧
        out.items.Perm (ks.map (specItem (allIngredients db (planRecipeIds plan)))) := by
  by_cases he : planRecipeIds plan = []
  · refine ⟨⟨[], 0, none⟩, ?_, rfl, by simp, [], by simp, ?_, by simp⟩
    · rw [generateShoppingList_owned hp hu, if_pos he]
    · intro k
      simp [he, allIngredients]
  · refine ⟨⟨sortItems ((buildMap (allIngredients db (planRecipeIds plan))).map itemOfPair),
      (sortItems ((buildMap (allIngredients db (planRecipeIds plan))).map itemOfPair)).length,
      some planId⟩, ?_, rfl, sortItems_sorted _, ?_⟩
    · rw [generateShoppingList_owned hp hu, if_neg he]
    · obtain ⟨hnd, hmem, hpt⟩ := mapInv_buildMap (allIngredients db (planRecipeIds plan))
      refine ⟨(buildMap (allIngredients db (planRecipeIds plan))).map Prod.fst, hnd, hmem, ?_⟩
      have h1 : buildMap (allIngredients db (planRecipeIds plan)) =
          ((buildMap (allIngredients db (planRecipeIds plan))).map Prod.fst).map
            (fun k => (k, (⟨specAmounts (allIngredients db (planRecipeIds plan)) k,
              specRecipes (allIngredients db (planRecipeIds plan)) k⟩ : Agg))) := by
        apply assocList_eq_keys_map
        intro q hq
        have h2 := hpt q hq
        cases hq2 : q.2 with
        | mk amounts recipes =>
          rw [hq2] at h2
          simp only [Agg.mk.injEq]
          exact ⟨h2.1, h2.2⟩
      have hEq : (buildMap (allIngredients db (planRecipeIds plan))).map itemOfPair =
          ((buildMap (allIngredients db (planRecipeIds plan))).map Prod.fst).map
            (specItem (allIngredients db (planRecipeIds plan))) := by
        conv_lhs => rw [h1]
        rw [List.map_map]
        rfl
      rw [← hEq]
      exact sortItems_perm _

/-- C1: for every weekly plan owned by the caller, `generateShoppingList`
collects every ingredient of every recipe referenced by a day of the plan,
merges two ingredient entries into one list item exactly when their names are
equal after lower-casing and trimming (the item list is, up to the final sort,
one item per distinct normalized name occurring among the collected entries),
sets the merged item's amount to the non-empty amount strings joined with
`" + "`, annotates it with the (title-deduplicated) recipes using it, and
returns the items sorted alphabetically by name. -/
theorem generateShoppingList_correct (db : DB) (uid : String) (planId : Nat)
    (plan : WeeklyPlan) (hp : getPlan db planId = some plan) (hu : plan.userId = uid) :
    ∃ out : ShoppingList,
      generateShoppingList db (some uid) planId = .ok (some out) ∧
      out.totalItems = out.items.length ∧
      out.items.Pairwise itemLe ∧
      ∃ ks : List String,
        ks.Nodup ∧
        (∀ k, k ∈ ks ↔ ∃ e ∈ allIngredients db (planRecipeIds plan), entryKey e = k) ∧
        out.items.Perm (ks.map (specItem (allIngredients db (planRecipeIds plan)))) :=
  generateShoppingList_master db uid planId plan hp hu

theorem foldl_pushUnique_nodup :
    ∀ (ts acc : List String), acc.Nodup → (ts.foldl pushUnique acc).Nodup
  | [], acc, h => h
  | t :: ts, acc, h => by
    refine foldl_pushUnique_nodup ts (pushUnique acc t) ?_
    unfold pushUnique
    by_cases hm : t ∈ acc
    · simpa [hm] using h
    · rw [if_neg hm, List.nodup_append]
      exact ⟨h, by simp, by simpa using hm⟩

theorem mem_foldl_pushUnique :
    ∀ (ts acc : List String) (x : String),
      x ∈ ts.foldl pushUnique acc ↔ x ∈ acc ∨ x ∈ ts
  | [], acc, x => by simp
  | t :: ts, acc, x => by
    rw [List.foldl_cons, mem_foldl_pushUnique ts (pushUnique acc t) x]
    unfold pushUnique
    by_cases hm : t ∈ acc
    · simp only [if_pos hm, List.mem_cons]
      constructor
      · rintro (h | h)
        · exact Or.inl h
        · exact Or.inr (Or.inr h)
      · rintro (h | h | h)
        · exact Or.inl h
        · exact Or.inl (h ▸ hm)
        · exact Or.inr h
    · simp only [if_neg hm, List.mem_append, List.mem_singleton, List.mem_cons]
      tauto

theorem specRecipes_nodup (es : List ShoppingEntry) (k : String) :
    (specRecipes es k).Nodup :=
  foldl_pushUnique_nodup _ [] (by simp)

theorem specRecipes_mem (es : List ShoppingEntry) (k x : String) :
    x ∈ specRecipes es k ↔ x ∈ (entriesFor es k).map (fun e => e.recipeTitle) := by
  rw [specRecipes, mem_foldl_pushUnique]
  simp

theorem specRecipes_length (es : List ShoppingEntry) (k : String) :
    (specRecipes es k).length =
      ((entriesFor es k).map (fun e => e.recipeTitle)).toFinset.card := by
  have h1 : (specRecipes es k).toFinset =
      ((entriesFor es k).map (fun e => e.recipeTitle)).toFinset := by
    ext x
    simp only [List.mem_toFinset]
    exact specRecipes_mem es k x
  rw [← List.toFinset_card_of_nodup (specRecipes_nodup es k), h1]

/-- C4 (amended): ingredient entries whose names agree after lower-casing and
trimming are merged into a single item, but the item's `recipeCount` equals
the number of distinct recipe *titles* contributing that ingredient — two
different recipes sharing a title are counted once. -/
theorem shoppingItem_recipeCount_titles (db : DB) (uid : String) (planId : Nat)
    (plan : WeeklyPlan) (out : ShoppingList)
    (hp : getPlan db planId = some plan) (hu : plan.userId = uid)
    (ho : generateShoppingList db (some uid) planId = .ok (some out)) :
    ∀ item ∈ out.items, ∃ k,
      (∃ e ∈ allIngredients db (planRecipeIds plan), entryKey e = k) ∧
      item.name = capitalizeFirst k ∧
      item.recipeCount =
        ((entriesFor (allIngredients db (planRecipeIds plan)) k).map
          (fun e => e.recipeTitle)).toFinset.card := by
  obtain ⟨out2, h1, _, _, ks, _, hmem, hperm⟩ :=
    generateShoppingList_master db uid planId plan hp hu
  have hout : out = out2 := by
    have h2 := ho.symm.trans h1
    simpa using h2
  intro item hi
  have hi2 : item ∈ ks.map (specItem (allIngredients db (planRecipeIds plan))) :=
    hperm.mem_iff.mp (hout ▸ hi)
  obtain ⟨k, hk, hitem⟩ := List.mem_map.mp hi2
  refine ⟨k, (hmem k).mp hk, ?_, ?_⟩
  · rw [← hitem]
    rfl
  · rw [← hitem]
    exact specRecipes_length (allIngredients db (planRecipeIds plan)) k

/-- A recipe row with representative non-key attributes, used by concrete
instances below. -/
def mkRecipe (id : Nat) (uid title : String) : Recipe :=
  ⟨id, uid, title, none, [], "beginner", 10, 5, "low", false, false, 2, 0, 0, none, none, none⟩

/-- Store for the C1 witness: one plan of user "u" referencing one recipe
with a single ingredient. -/
def wDbC1 : DB :=
  ⟨[mkRecipe 1 "u" "Pasta"],
   [⟨1, 1, "Salt", "1 tsp", 0⟩],
   [], [⟨10, "u", 0, [⟨0, some 1⟩, ⟨1, none⟩], 0, 0⟩], [], 2⟩

/-- The plan stored in `wDbC1`. -/
def wPlanC1 : WeeklyPlan := ⟨10, "u", 0, [⟨0, some 1⟩, ⟨1, none⟩], 0, 0⟩

theorem generateShoppingList_correct_witness :
    getPlan wDbC1 10 = some wPlanC1 ∧ wPlanC1.userId = "u" ∧
      ∃ out : ShoppingList,
        generateShoppingList wDbC1 (some "u") 10 = .ok (some out) ∧
        out.totalItems = out.items.length ∧
        out.items.Pairwise itemLe := by
  refine ⟨rfl, rfl, ?_⟩
  obtain ⟨out, h1, h2, h3, _⟩ :=
    generateShoppingList_correct wDbC1 "u" 10 wPlanC1 rfl rfl
  exact ⟨out, h1, h2, h3⟩

/-- Store for the C4 counterexample: two different recipes share the title
"Pasta" and both contribute the ingredient salt (names differing only by
case and whitespace). -/
def cDbC4 : DB :=
  ⟨[mkRecipe 1 "u" "Pasta", mkRecipe 2 "u" "Pasta"],
   [⟨1, 1, "Salt", "1 tsp", 0⟩, ⟨2, 2, "salt ", "2 tsp", 0⟩],
   [], [⟨10, "u", 0, [⟨0, some 1⟩, ⟨1, some 2⟩], 0, 0⟩], [], 3⟩

/-- The plan stored in `cDbC4`. -/
def cPlanC4 : WeeklyPlan := ⟨10, "u", 0, [⟨0, some 1⟩, ⟨1, some 2⟩], 0, 0⟩

/-- C4 counterexample: the salt entries of the two distinct recipes (ids 1
and 2) are merged into one item, but its `recipeCount` is 1 — not the
number (2) of distinct source recipes contributing the ingredient — because
the aggregator deduplicates contributing recipes by *title* and both recipes
are titled "Pasta". -/
theorem shoppingItem_recipeCount_cex :
    generateShoppingList cDbC4 (some "u") 10 =
      .ok (some ⟨[⟨"Salt", "1 tsp + 2 tsp", ["Pasta"], 1⟩], 1, some 10⟩) ∧
    ((cDbC4.ingredients.filter (fun i => normalizeName i.name == "salt")).map
      (fun i => i.recipeId)).toFinset.card = 2 ∧
    (1 : Nat) ≠ 2 :=
  ⟨rfl, by decide, by decide⟩

theorem shoppingItem_recipeCount_titles_witness :
    ∃ k, (∃ e ∈ allIngredients cDbC4 (planRecipeIds cPlanC4), entryKey e = k) ∧
      (⟨"Salt", "1 tsp + 2 tsp", ["Pasta"], 1⟩ : ShoppingItem).name = capitalizeFirst k ∧
      (⟨"Salt", "1 tsp + 2 tsp", ["Pasta"], 1⟩ : ShoppingItem).recipeCount =
        ((entriesFor (allIngredients cDbC4 (planRecipeIds cPlanC4)) k).map
          (fun e => e.recipeTitle)).toFinset.card :=
  shoppingItem_recipeCount_titles cDbC4 "u" 10 cPlanC4
    ⟨[⟨"Salt", "1 tsp + 2 tsp", ["Pasta"], 1⟩], 1, some 10⟩ rfl rfl rfl
    ⟨"Salt", "1 tsp + 2 tsp", ["Pasta"], 1⟩ (by simp)

/-! ## weeklyPlans.ts: updateWeek, removeRecipeFromDay, generatePlan -/

/-- The access-check loop at the top of `updateWeek` (weeklyPlans.ts,
lines 196-208): every referenced recipe must exist and be owned by the
caller or public (`!recipe.isPublic` is JS-truthy exactly when `isPublic`
is absent or `false`). -/
def checkDaysAccess (db : DB) (uid : String) : List DayEntry → Except String Unit
  | [] => .ok ()
  | d :: ds =>
    match d.recipeId with
    | none => checkDaysAccess db uid ds
    | some rid =>
      match getRecipe db rid with
      | none => .error s!"Recipe not found for day {d.dayOfWeek}"
      | some r =>
        if r.userId ≠ uid ∧ r.isPublic ≠ some true then
          .error s!"You don\x27t have access to recipe for day {d.dayOfWeek}"
        else
          checkDaysAccess db uid ds

/-- `ctx.db.patch(plan._id, { days, updatedAt: now })` applied to one row. -/
def patchPlanDays (days : List DayEntry) (now : Int) (q : WeeklyPlan) : WeeklyPlan :=
  { q with days := days, updatedAt := now }

/-- `updateWeek` (weeklyPlans.ts, lines 185-239): after the access check,
patch the existing plan for the caller's week with the caller-supplied
`days` array, or insert a new plan carrying it.  Returns the updated store
and the plan id. -/
def updateWeek (db : DB) (identity : Option String) (ws : Int)
    (days : List DayEntry) (now : Int) : Except String (DB × Nat) :=
  match getUserId identity with
  | .error e => .error e
  | .ok uid =>
    match checkDaysAccess db uid days with
    | .error e => .error e
    | .ok _ =>
      match findPlanByUserWeek db uid ws with
      | some existingPlan =>
        .ok ({ db with
                weeklyPlans := db.weeklyPlans.map (fun q =>
                  if q.id = existingPlan.id then patchPlanDays days now q else q) },
             existingPlan.id)
      | none =>
        .ok ({ db with
                weeklyPlans := db.weeklyPlans ++
                  [⟨db.nextId, uid, ws, days, now, now⟩],
                nextId := db.nextId + 1 },
             db.nextId)

/-- The per-day callback of `removeRecipeFromDay`:
`day.dayOfWeek === args.dayOfWeek ? { ...day, recipeId: undefined } : day`. -/
def clearDay (dayOfWeek : Int) (e : DayEntry) : DayEntry :=
  if e.dayOfWeek = dayOfWeek then { e with recipeId := none } else e

/-- `removeRecipeFromDay` (weeklyPlans.ts, lines 242-274): clear the
`recipeId` of the matching day entries of the caller's plan for the week. -/
def removeRecipeFromDay (db : DB) (identity : Option String) (ws : Int)
    (dayOfWeek : Int) (now : Int) : Except String (DB × Nat) :=
  match getUserId identity with
  | .error e => .error e
  | .ok uid =>
    match findPlanByUserWeek db uid ws with
    | none => .error "Weekly plan not found"
    | some plan =>
      let updatedDays := plan.days.map (clearDay dayOfWeek)
      .ok ({ db with
              weeklyPlans := db.weeklyPlans.map (fun q =>
                if q.id = plan.id then patchPlanDays updatedDays now q else q) },
           plan.id)

/-- The `days` construction of `generatePlan` (weeklyPlans.ts, lines
424-430): `Array.from({length: 7}, (_, i) => ({dayOfWeek: i, recipeId:
recipeIds.find(r => r.dayOfWeek === i)?.recipeId}))`, over the
day-of-week/recipe-id pairs collected from the AI plan. -/
def generatePlanDays (recipeIds : List (Int × Nat)) : List DayEntry :=
  (List.range 7).map (fun i =>
    ⟨(i : Int), (recipeIds.find? (fun r => r.1 == (i : Int))).map (fun r => r.2)⟩)

/-- The "exactly seven entries with dayOfWeek 0 through 6" shape of a days
array. -/
def SevenDayShape (ds : List DayEntry) : Prop :=
  ds.map (fun d => d.dayOfWeek) = [0, 1, 2, 3, 4, 5, 6]

theorem find?_map_patchPlan (l : List WeeklyPlan) (pid : Nat)
    (f : WeeklyPlan → WeeklyPlan) (hf : ∀ q, (f q).id = q.id) :
    (l.map (fun q => if q.id = pid then f q else q)).find? (fun q => q.id == pid)
      = (l.find? (fun q => q.id == pid)).map f := by
  induction l with
  | nil => rfl
  | cons q t ih =>
    by_cases hq : q.id = pid
    · rw [List.map_cons, if_pos hq]
      rw [List.find?_cons_of_pos _ (by simp [hf, hq]), List.find?_cons_of_pos _ (by simp [hq])]
      rfl
    · rw [List.map_cons, if_neg hq]
      rw [List.find?_cons_of_neg _ (by simp [hq]), List.find?_cons_of_neg _ (by simp [hq])]
      exact ih

/-- Case analysis of a successful `updateWeek`: either the caller's plan for
the week existed and was patched with the supplied `days`, or a fresh plan
carrying `days` was inserted. -/
theorem updateWeek_ok {db : DB} {uid : String} {ws : Int} {days : List DayEntry}
    {now : Int} {db2 : DB} {pid : Nat}
    (h : updateWeek db (some uid) ws days now = .ok (db2, pid)) :
    (∃ existingPlan, findPlanByUserWeek db uid ws = some existingPlan ∧
      pid = existingPlan.id ∧
      db2 = { db with weeklyPlans := db.weeklyPlans.map (fun q =>
        if q.id = existingPlan.id then patchPlanDays days now q else q) }) ∨
    (findPlanByUserWeek db uid ws = none ∧ pid = db.nextId ∧
      db2 = { db with
        weeklyPlans := db.weeklyPlans ++ [⟨db.nextId, uid, ws, days, now, now⟩],
        nextId := db.nextId + 1 }) := by
  simp only [updateWeek, getUserId] at h
  split at h
  · simp at h
  · split at h
    · rename_i existingPlan hfind
      obtain ⟨h1, h2⟩ := by simpa using h
      exact Or.inl ⟨existingPlan, hfind, h2.symm, h1.symm⟩
    · rename_i hfind
      obtain ⟨h1, h2⟩ := by simpa using h
      exact Or.inr ⟨hfind, h2.symm, h1.symm⟩

/-- C2 (amended): `removeRecipeFromDay` preserves the dayOfWeek sequence of
the plan it patches and `generatePlan` always constructs a days array of
exactly seven entries with dayOfWeek 0 through 6, but `updateWeek` stores
exactly the caller-supplied days array without any shape check — so a stored
plan has the seven-day shape after `updateWeek` only when the supplied array
already has it. -/
theorem weeklyPlan_sevenDays :
    (∀ (db : DB) (uid : String) (ws : Int) (days : List DayEntry) (now : Int)
        (db2 : DB) (pid : Nat),
      updateWeek db (some uid) ws days now = .ok (db2, pid) →
      (∀ p ∈ db.weeklyPlans, p.id ≠ db.nextId) →
      SevenDayShape days →
      ∃ p, getPlan db2 pid = some p ∧ SevenDayShape p.days) ∧
    (∀ (db : DB) (uid : String) (ws d now : Int) (db2 : DB) (pid : Nat)
        (plan : WeeklyPlan),
      removeRecipeFromDay db (some uid) ws d now = .ok (db2, pid) →
      findPlanByUserWeek db uid ws = some plan →
      ∃ p, getPlan db2 pid = some p ∧
        p.days.map (fun e => e.dayOfWeek) = plan.days.map (fun e => e.dayOfWeek)) ∧
    (∀ rs : List (Int × Nat), SevenDayShape (generatePlanDays rs)) := by
  refine ⟨?_, ?_, ?_⟩
  · intro db uid ws days now db2 pid h hfresh hshape
    rcases updateWeek_ok h with ⟨existingPlan, hfind, hpid, hdb2⟩ | ⟨hfind, hpid, hdb2⟩
    · have hmem : existingPlan ∈ db.weeklyPlans :=
        List.mem_of_find?_eq_some (hfind : db.weeklyPlans.find? _ = some existingPlan)
      have h1 : (db.weeklyPlans.find? (fun q => q.id == existingPlan.id)).isSome :=
        List.find?_isSome.mpr ⟨existingPlan, hmem, by simp⟩
      obtain ⟨q, hq⟩ := Option.isSome_iff_exists.mp h1
      refine ⟨patchPlanDays days now q, ?_, hshape⟩
      rw [hdb2, hpid]
      show ((db.weeklyPlans.map (fun q =>
          if q.id = existingPlan.id then patchPlanDays days now q else q)).find?
          (fun q => q.id == existingPlan.id)) = _
      rw [find?_map_patchPlan db.weeklyPlans existingPlan.id
        (patchPlanDays days now) (fun q => rfl), hq]
      rfl
    · refine ⟨(⟨db.nextId, uid, ws, days, now, now⟩ : WeeklyPlan), ?_, hshape⟩
      rw [hdb2, hpid]
      show ((db.weeklyPlans ++ [(⟨db.nextId, uid, ws, days, now, now⟩ : WeeklyPlan)]).find?
          (fun q => q.id == db.nextId)) = _
      rw [List.find?_append]
      have hnone : db.weeklyPlans.find? (fun q => q.id == db.nextId) = none :=
        List.find?_eq_none.mpr (fun p hp => by simpa using hfresh p hp)
      rw [hnone]
      simp
  · intro db uid ws d now db2 pid plan h hfind
    simp only [removeRecipeFromDay, getUserId, hfind] at h
    obtain ⟨hdb2, hpid⟩ := by simpa using h
    have hmem : plan ∈ db.weeklyPlans :=
      List.mem_of_find?_eq_some (hfind : db.weeklyPlans.find? _ = some plan)
    have h1 : (db.weeklyPlans.find? (fun q => q.id == plan.id)).isSome :=
      List.find?_isSome.mpr ⟨plan, hmem, by simp⟩
    obtain ⟨q, hq⟩ := Option.isSome_iff_exists.mp h1
    refine ⟨patchPlanDays (plan.days.map (clearDay d)) now q, ?_, ?_⟩
    · rw [← hdb2, ← hpid]
      show ((db.weeklyPlans.map (fun q =>
          if q.id = plan.id then patchPlanDays (plan.days.map (clearDay d)) now q
          else q)).find? (fun q => q.id == plan.id)) = _
      rw [find?_map_patchPlan db.weeklyPlans plan.id
        (patchPlanDays (plan.days.map (clearDay d)) now) (fun q => rfl), hq]
      rfl
    · show (plan.days.map (clearDay d)).map (fun e => e.dayOfWeek) = _
      rw [List.map_map]
      apply List.map_congr_left
      intro e _
      by_cases he : e.dayOfWeek = d
      · simp [clearDay, he]
      · simp [clearDay, he]
  · intro rs
    show (generatePlanDays rs).map (fun (e : DayEntry) => e.dayOfWeek) = [0, 1, 2, 3, 4, 5, 6]
    rfl

/-- A caller-supplied seven-day array (all days empty). -/
def wDaysC2 : List DayEntry :=
  [⟨0, none⟩, ⟨1, none⟩, ⟨2, none⟩, ⟨3, none⟩, ⟨4, none⟩, ⟨5, none⟩, ⟨6, none⟩]

/-- An empty store. -/
def wDbC2 : DB := ⟨[], [], [], [], [], 0⟩

theorem weeklyPlan_sevenDays_witness :
    ∃ p, getPlan (⟨[], [], [], [⟨0, "u", 0, wDaysC2, 5, 5⟩], [], 1⟩ : DB) 0 = some p ∧
      SevenDayShape p.days :=
  weeklyPlan_sevenDays.1 wDbC2 "u" 0 wDaysC2 5
    ⟨[], [], [], [⟨0, "u", 0, wDaysC2, 5, 5⟩], [], 1⟩ 0 rfl (by simp [wDbC2])
    (by unfold SevenDayShape; rfl)

/-- C2 counterexample: `updateWeek` accepts an empty `days` array and stores
it unchanged — the resulting plan has 0 day entries, not 7. -/
theorem weeklyPlan_sevenDays_cex :
    updateWeek wDbC2 (some "u") 100 [] 5 =
      .ok (⟨[], [], [], [⟨0, "u", 100, [], 5, 5⟩], [], 1⟩, 0) ∧
    (getPlan (⟨[], [], [], [⟨0, "u", 100, [], 5, 5⟩], [], 1⟩ : DB) 0).map
      (fun p => p.days.length) = some 0 ∧
    (0 : Nat) ≠ 7 :=
  ⟨rfl, rfl, by decide⟩

/-! ## recipes.ts -/

/-- `list` (recipes.ts, lines 152-169): without identity returns `[]`;
otherwise the caller's recipes from the `by_user` index, newest first
(`.order("desc")` is modelled by reversing the creation order). -/
def recipesList (db : DB) (identity : Option String) : List Recipe :=
  match identity with
  | none => []
  | some userId => (db.recipes.filter (fun r => r.userId == userId)).reverse

/-- The result shape of `recipes.getById`. -/
structure RecipeDetail where
  recipe : Recipe
  ingredients : List IngredientRow
  steps : List RecipeStepRow
  imageUrl : Option String
deriving DecidableEq

/-- `getById` (recipes.ts, lines 171-213): null without identity, null when
the recipe is missing, null when the caller is not the owner; otherwise the
recipe with its ingredients, steps and image URL. -/
def recipesGetById (db : DB) (identity : Option String) (id : Nat) :
    Option RecipeDetail :=
  match identity with
  | none => none
  | some userId =>
    match getRecipe db id with
    | none => none
    | some recipe =>
      if recipe.userId ≠ userId then none
      else
        some ⟨recipe, ingredientsByRecipe db id, stepsByRecipe db id,
              getStorageUrl db recipe.imageStorageId⟩

/-- The argument record of `recipes.create` (recipes.ts, lines 215-230). -/
structure CreateRecipeArgs where
  title : String
  description : Option String
  cuisine : List String
  skillLevel : String
  cookTime : Int
  prepTime : Int
  cost : String
  canFreeze : Bool
  canReheat : Bool
  servings : Int
  ingredients : Option (List String)
  steps : Option (List String)
  imageStorageId : Option Nat
deriving DecidableEq

/-- The ingredient-insertion loop of `recipes.create`/`update`: one row per
name, `amount: ""`, `order: i`, ids allocated sequentially. -/
def insertIngredientsLoop (recipeId : Nat) : Nat → List String → DB → DB
  | _, [], db => db
  | i, n :: ns, db =>
    insertIngredientsLoop recipeId (i + 1) ns
      { db with
        ingredients := db.ingredients ++ [⟨db.nextId, recipeId, n, "", i⟩],
        nextId := db.nextId + 1 }

/-- The step-insertion loop of `recipes.create`/`update`: one `cooking` row
per instruction, `stepNumber: i + 1`, `order: i`. -/
def insertStepsLoop (recipeId : Nat) : Nat → List String → DB → DB
  | _, [], db => db
  | i, ins :: rest, db =>
    insertStepsLoop recipeId (i + 1) rest
      { db with
        recipeSteps := db.recipeSteps ++ [⟨db.nextId, recipeId, .cooking, i + 1, ins, i⟩],
        nextId := db.nextId + 1 }

/-- `create` (recipes.ts, lines 215-279): insert the recipe row, then the
ingredient rows (when a non-empty array is supplied), then the step rows. -/
def recipesCreate (db : DB) (identity : Option String) (args : CreateRecipeArgs)
    (now : Int) : Except String (DB × Nat) :=
  match getUserId identity with
  | .error e => .error e
  | .ok userId =>
    let recipeId := db.nextId
    let db1 : DB :=
      { db with
        recipes := db.recipes ++
          [⟨recipeId, userId, args.title, args.description, args.cuisine,
            args.skillLevel, args.cookTime, args.prepTime, args.cost,
            args.canFreeze, args.canReheat, args.servings, now, now,
            none, none, args.imageStorageId⟩],
        nextId := db.nextId + 1 }
    let db2 : DB :=
      match args.ingredients with
      | some ings => if ings.length > 0 then insertIngredientsLoop recipeId 0 ings db1 else db1
      | none => db1
    let db3 : DB :=
      match args.steps with
      | some insts => if insts.length > 0 then insertStepsLoop recipeId 0 insts db2 else db2
      | none => db2
    .ok (db3, recipeId)

/-- `ctx.db.delete` applied to each collected row id in turn. -/
def deleteRowsById {α : Type} (getId : α → Nat) (rows : List α) (ids : List Nat) :
    List α :=
  ids.foldl (fun acc j => acc.filter (fun r => getId r ≠ j)) rows

/-- `remove` (recipes.ts, lines 402-448): ownership check, then delete the
stored image, every ingredient row of the recipe, every step row of the
recipe, and the recipe itself. -/
def recipesRemove (db : DB) (identity : Option String) (id : Nat) :
    Except String DB :=
  match getUserId identity with
  | .error e => .error e
  | .ok userId =>
    match getRecipe db id with
    | none => .error "Recipe not found or you don\x27t have permission to delete it"
    | some recipe =>
      if recipe.userId ≠ userId then
        .error "Recipe not found or you don\x27t have permission to delete it"
      else
        let storageUrls2 :=
          match recipe.imageStorageId with
          | some sid => db.storageUrls.filter (fun p => p.1 ≠ sid)
          | none => db.storageUrls
        let ingredients2 := deleteRowsById (fun (i : IngredientRow) => i.id)
          db.ingredients ((ingredientsByRecipe db id).map (fun i => i.id))
        let recipeSteps2 := deleteRowsById (fun (s : RecipeStepRow) => s.id)
          db.recipeSteps ((stepsByRecipe db id).map (fun s => s.id))
        .ok ⟨db.recipes.filter (fun r => r.id ≠ id), ingredients2, recipeSteps2,
             db.weeklyPlans, storageUrls2, db.nextId⟩

/-! ## weeklyPlans.ts: getCurrentWeek, getWeek -/

/-- The recipe annotation attached to a day by the week queries. -/
structure EnrichedRecipe where
  recipe : Recipe
  imageUrl : Option String
  isOwnRecipe : Bool
deriving DecidableEq

/-- One element of the `days` array returned by the week queries. -/
structure DayView where
  dayOfWeek : Int
  recipeId : Option Nat
  recipe : Option EnrichedRecipe
deriving DecidableEq

/-- The value returned by `getCurrentWeek`/`getWeek`; `id` models `_id`,
which is `null` for the synthesized default plan. -/
structure PlanView where
  id : Option Nat
  userId : String
  weekStartDate : Int
  days : List DayView
  createdAt : Int
  updatedAt : Int
deriving DecidableEq

/-- The per-day recipe enrichment of the week queries (weeklyPlans.ts,
lines 85-111): look the referenced recipe up, attach its image URL and the
ownership flag; `recipe: null` when absent. -/
def enrichDay (db : DB) (uid : String) (d : DayEntry) : DayView :=
  match d.recipeId with
  | none => ⟨d.dayOfWeek, none, none⟩
  | some rid =>
    match getRecipe db rid with
    | none => ⟨d.dayOfWeek, some rid, none⟩
    | some recipe =>
      ⟨d.dayOfWeek, some rid,
       some ⟨recipe, getStorageUrl db recipe.imageStorageId, recipe.userId == uid⟩⟩

/-- The default plan synthesized when no row exists (weeklyPlans.ts,
lines 69-82 and 133-146): `_id: null` and seven empty day slots. -/
def defaultPlanView (uid : String) (ws now : Int) : PlanView :=
  ⟨none, uid, ws, (List.range 7).map (fun i => ⟨(i : Int), none, none⟩), now, now⟩

/-- `getWeek` (weeklyPlans.ts, lines 121-182). -/
def weeklyGetWeek (db : DB) (identity : Option String) (ws now : Int) :
    Except String PlanView :=
  match getUserId identity with
  | .error e => .error e
  | .ok uid =>
    match findPlanByUserWeek db uid ws with
    | none => .ok (defaultPlanView uid ws now)
    | some plan =>
      .ok ⟨some plan.id, plan.userId, plan.weekStartDate,
           plan.days.map (enrichDay db uid), plan.createdAt, plan.updatedAt⟩

/-- `getCurrentWeek` (weeklyPlans.ts, lines 56-118): identical to `getWeek`
except that the week start is `getWeekStartDate(new Date())`; the Date
computation is abstracted into the `weekStart` parameter. -/
def weeklyGetCurrentWeek (db : DB) (identity : Option String)
    (weekStart now : Int) : Except String PlanView :=
  match getUserId identity with
  | .error e => .error e
  | .ok uid =>
    match findPlanByUserWeek db uid weekStart with
    | none => .ok (defaultPlanView uid weekStart now)
    | some plan =>
      .ok ⟨some plan.id, plan.userId, plan.weekStartDate,
           plan.days.map (enrichDay db uid), plan.createdAt, plan.updatedAt⟩

/-- C3 (amended): with no authenticated identity, every mutation of the
embedded RPC surface rejects with "Not authenticated", and the recipes
queries `list` and `getById` degrade to an empty array / null — but the
weeklyPlans queries (`getCurrentWeek`, `getWeek`, `generateShoppingList`)
call `getUserId` and therefore also reject instead of returning empty/null. -/
theorem auth_absence_behavior :
    ∀ (db : DB) (id pid : Nat) (ws d now : Int) (days : List DayEntry)
      (args : CreateRecipeArgs),
      recipesList db none = [] ∧
      recipesGetById db none id = none ∧
      weeklyGetCurrentWeek db none ws now = .error "Not authenticated" ∧
      weeklyGetWeek db none ws now = .error "Not authenticated" ∧
      generateShoppingList db none pid = .error "Not authenticated" ∧
      updateWeek db none ws days now = .error "Not authenticated" ∧
      removeRecipeFromDay db none ws d now = .error "Not authenticated" ∧
      recipesCreate db none args now = .error "Not authenticated" ∧
      recipesRemove db none id = .error "Not authenticated" :=
  fun _ _ _ _ _ _ _ _ => ⟨rfl, rfl, rfl, rfl, rfl, rfl, rfl, rfl, rfl⟩

/-- C3 counterexample: `weeklyPlans.getCurrentWeek` with no identity throws
"Not authenticated" — it does not return an empty/null result as the claim
states for every query. -/
theorem auth_absence_cex :
    weeklyGetCurrentWeek wDbC2 none 0 0 = .error "Not authenticated" ∧
    (weeklyGetCurrentWeek wDbC2 none 0 0).isOk = false :=
  ⟨rfl, rfl⟩

/-- C6: a recipe whose `userId` differs from the caller's identity (public
or not — a fortiori when not public) is reported by `recipes.getById`
exactly like a nonexistent recipe: the query returns null, never the
record. -/
theorem getById_ownership (db : DB) (uid : String) (id : Nat) (r : Recipe)
    (hr : getRecipe db id = some r) (hu : r.userId ≠ uid)
    (_hp : r.isPublic ≠ some true) :
    recipesGetById db (some uid) id = none ∧
    ∀ id2, getRecipe db id2 = none → recipesGetById db (some uid) id2 = none := by
  constructor
  · simp only [recipesGetById, hr]
    rw [if_pos hu]
  · intro id2 h2
    simp [recipesGetById, h2]

/-- A store holding a private recipe of user "alice". -/
def wDbC6 : DB := ⟨[mkRecipe 1 "alice" "Secret"], [], [], [], [], 2⟩

theorem getById_ownership_witness :
    getRecipe wDbC6 1 = some (mkRecipe 1 "alice" "Secret") ∧
    recipesGetById wDbC6 (some "bob") 1 = none :=
  ⟨rfl, (getById_ownership wDbC6 "bob" 1 (mkRecipe 1 "alice" "Secret") rfl
    (by decide) (by decide)).1⟩

theorem mem_deleteRowsById {α : Type} (getId : α → Nat) (ids : List Nat) :
    ∀ (rows : List α) (r : α),
      r ∈ deleteRowsById getId rows ids ↔ r ∈ rows ∧ getId r ∉ ids := by
  induction ids with
  | nil => intro rows r; simp [deleteRowsById]
  | cons j js ih =>
    intro rows r
    show r ∈ deleteRowsById getId (rows.filter (fun x => getId x ≠ j)) js ↔ _
    rw [ih]
    simp only [List.mem_filter, decide_eq_true_eq, List.mem_cons]
    constructor
    · rintro ⟨⟨h1, h2⟩, h3⟩
      exact ⟨h1, by simp [h2, h3]⟩
    · rintro ⟨h1, h2⟩
      simp only [not_or] at h2
      exact ⟨⟨h1, h2.1⟩, h2.2⟩

/-- C7: when `recipes.remove` succeeds, no ingredient row and no step row
referencing the recipe id remains, and the recipe row itself is gone. -/
theorem remove_cascades (db : DB) (uid : String) (id : Nat) (db2 : DB)
    (h : recipesRemove db (some uid) id = .ok db2) :
    (∀ i ∈ db2.ingredients, i.recipeId ≠ id) ∧
    (∀ s ∈ db2.recipeSteps, s.recipeId ≠ id) ∧
    (∀ r ∈ db2.recipes, r.id ≠ id) := by
  simp only [recipesRemove, getUserId] at h
  split at h
  · simp at h
  · rename_i recipe hrec
    split at h
    · simp at h
    · rename_i hown
      have hdb2 := Except.ok.inj h
      refine ⟨?_, ?_, ?_⟩
      · intro i hi heq
        have hi2 : i ∈ deleteRowsById (fun (i : IngredientRow) => i.id)
            db.ingredients ((ingredientsByRecipe db id).map (fun i => i.id)) := by
          rw [← hdb2] at hi
          exact hi
        rw [mem_deleteRowsById] at hi2
        refine hi2.2 (List.mem_map_of_mem _ ?_)
        simp [ingredientsByRecipe, List.mem_filter, hi2.1, heq]
      · intro s hs heq
        have hs2 : s ∈ deleteRowsById (fun (s : RecipeStepRow) => s.id)
            db.recipeSteps ((stepsByRecipe db id).map (fun s => s.id)) := by
          rw [← hdb2] at hs
          exact hs
        rw [mem_deleteRowsById] at hs2
        refine hs2.2 (List.mem_map_of_mem _ ?_)
        simp [stepsByRecipe, List.mem_filter, hs2.1, heq]
      · intro r hr heq
        have hr2 : r ∈ db.recipes.filter (fun r => r.id ≠ id) := by
          rw [← hdb2] at hr
          exact hr
        rw [List.mem_filter] at hr2
        simp only [decide_eq_true_eq] at hr2
        exact hr2.2 heq

/-- A store holding one recipe of user "u" with one ingredient row and one
step row. -/
def wDbC7 : DB :=
  ⟨[mkRecipe 1 "u" "Cake"], [⟨2, 1, "Flour", "200 g", 0⟩],
   [⟨3, 1, StepType.cooking, 1, "Mix", 0⟩], [], [], 4⟩

theorem remove_cascades_witness :
    recipesRemove wDbC7 (some "u") 1 = .ok (⟨[], [], [], [], [], 4⟩ : DB) ∧
    ((∀ i ∈ (⟨[], [], [], [], [], 4⟩ : DB).ingredients, i.recipeId ≠ 1) ∧
     (∀ s ∈ (⟨[], [], [], [], [], 4⟩ : DB).recipeSteps, s.recipeId ≠ 1) ∧
     (∀ r ∈ (⟨[], [], [], [], [], 4⟩ : DB).recipes, r.id ≠ 1)) :=
  ⟨rfl, remove_cascades wDbC7 "u" 1 ⟨[], [], [], [], [], 4⟩ rfl⟩

/-- C9: for an authenticated caller and a week with no stored plan, both
week queries return (rather than null) a synthesized default plan with
`_id` null and exactly seven day slots, dayOfWeek 0 through 6, none of them
referencing a recipe. -/
theorem getWeek_default (db : DB) (uid : String) (ws now : Int)
    (h : findPlanByUserWeek db uid ws = none) :
    weeklyGetWeek db (some uid) ws now = .ok (defaultPlanView uid ws now) ∧
    weeklyGetCurrentWeek db (some uid) ws now = .ok (defaultPlanView uid ws now) ∧
    (defaultPlanView uid ws now).id = none ∧
    (defaultPlanView uid ws now).days.length = 7 ∧
    (defaultPlanView uid ws now).days.map
      (fun dv => (dv.dayOfWeek, dv.recipeId, dv.recipe)) =
      (List.range 7).map (fun i =>
        ((i : Int), (none : Option Nat), (none : Option EnrichedRecipe))) := by
  refine ⟨?_, ?_, rfl, rfl, rfl⟩
  · simp only [weeklyGetWeek, getUserId, h]
  · simp only [weeklyGetCurrentWeek, getUserId, h]

theorem getWeek_default_witness :
    findPlanByUserWeek wDbC6 "bob" 0 = none ∧
    weeklyGetWeek wDbC6 (some "bob") 0 0 = .ok (defaultPlanView "bob" 0 0) ∧
    weeklyGetCurrentWeek wDbC6 (some "bob") 0 0 = .ok (defaultPlanView "bob" 0 0) ∧
    (defaultPlanView "bob" 0 0).id = none ∧
    (defaultPlanView "bob" 0 0).days.length = 7 :=
  have h := getWeek_default wDbC6 "bob" 0 0 rfl
  ⟨rfl, h.1, h.2.1, h.2.2.1, h.2.2.2.1⟩

/-! ## ai.ts -/

/-- `RETRY_DELAY = 1000` (milliseconds). -/
def RETRY_DELAY : Nat := 1000

/-- `MAX_RETRIES = 3`; every generation entry point calls `callOpenAI`
without a config, so `config?.maxRetries || MAX_RETRIES` is always 3. -/
def MAX_RETRIES : Nat := 3

/-- The outcome of one upstream chat-completion attempt: a non-ok HTTP
response (with status and the message `errorData.error?.message ||
response.statusText`), an ok response whose parsed body has no
`choices[0].message.content`, or an ok response with content. -/
inductive AttemptResult where
  | httpError (status : Nat) (msg : String)
  | noContent
  | content (body : String)
deriving DecidableEq

/-- The message of `new Error("OpenAI API error: ...")`. -/
def apiErrorMsg (status : Nat) (msg : String) : String :=
  s!"OpenAI API error: {status} {msg}"

/-- The message recorded in `lastError` by the catch block for a failed
attempt. -/
def failureMsg : AttemptResult → String
  | .httpError st m => apiErrorMsg st m
  | .noContent => "No content in OpenAI response"
  | .content _ => ""

/-- `${lastError?.message}`: JS renders `undefined` when `lastError` is
still null. -/
def lastErrorMsg : Option String → String
  | none => "undefined"
  | some m => m

/-- Whether an attempt outcome takes the catch/retry path. -/
def isFailure : AttemptResult → Bool
  | .content _ => false
  | _ => true

/-- The single sleep performed after a failed attempt `a` (0-based):
a 429 response retried via the rate-limit branch sleeps
`RETRY_DELAY * (attempt + 1) * 2`; every other caught failure sleeps
`RETRY_DELAY * (attempt + 1)`. -/
def delayFor (a : Nat) : AttemptResult → Nat
  | .httpError status _ =>
    if status = 429 then RETRY_DELAY * (a + 1) * 2 else RETRY_DELAY * (a + 1)
  | _ => RETRY_DELAY * (a + 1)

/-- The `lastError` recorded after a failed attempt: untouched by the
429-`continue` branch, set by the catch block otherwise. -/
def nextLastError (le : Option String) : AttemptResult → Option String
  | .httpError status msg =>
    if status = 429 then le else some (apiErrorMsg status msg)
  | .noContent => some "No content in OpenAI response"
  | .content _ => le

/-- The retry loop of `callOpenAI` (ai.ts, lines 61-114).  `out` gives the
outcome of each attempt; `fuel` counts the remaining loop iterations
(`fuel = maxRetries - attempt`); `lastError` is the message recorded by the
catch block.  Returns the result together with the list of sleeps performed,
in order.  The `429`-with-attempts-remaining branch (`continue`) does not
touch `lastError`; a `429` on the final attempt is thrown and caught like
any other error. -/
def callLoop (out : Nat → AttemptResult) (maxRetries : Nat) :
    Nat → Nat → Option String → Except String String × List Nat
  | 0, _, lastError =>
    (.error s!"Failed to call OpenAI API after {maxRetries} attempts: {lastErrorMsg lastError}",
     [])
  | fuel + 1, attempt, lastError =>
    match out attempt with
    | .content body => (.ok body, [])
    | .httpError status msg =>
      if status = 429 ∧ fuel ≠ 0 then
        let rest := callLoop out maxRetries fuel (attempt + 1) lastError
        (rest.1, RETRY_DELAY * (attempt + 1) * 2 :: rest.2)
      else
        if fuel = 0 then
          callLoop out maxRetries fuel (attempt + 1) (some (apiErrorMsg status msg))
        else
          let rest := callLoop out maxRetries fuel (attempt + 1)
            (some (apiErrorMsg status msg))
          (rest.1, RETRY_DELAY * (attempt + 1) :: rest.2)
    | .noContent =>
      if fuel = 0 then
        callLoop out maxRetries fuel (attempt + 1) (some "No content in OpenAI response")
      else
        let rest := callLoop out maxRetries fuel (attempt + 1)
          (some "No content in OpenAI response")
        (rest.1, RETRY_DELAY * (attempt + 1) :: rest.2)

/-- `callOpenAI` (ai.ts, lines 53-115) as used by every generation entry
point: three attempts, starting with no recorded error. -/
def callOpenAI (out : Nat → AttemptResult) : Except String String × List Nat :=
  callLoop out MAX_RETRIES MAX_RETRIES 0 none

/-- The fields of the parsed AI reply that the required-field check reads.
`none` models an absent field; ingredients and steps are arrays of
(name, amount) pairs / instruction strings. -/
structure RecipeJson where
  title : Option String
  ingredients : Option (List (String × String))
  steps : Option (List String)
deriving DecidableEq

/-- The outcome of `parseAIResponse`: a JSON parse failure with the
underlying message, or a parsed object. -/
inductive ParseResult where
  | fail (msg : String)
  | parsed (r : RecipeJson)
deriving DecidableEq

/-- JS truthiness of a possibly-absent string: `!x` is true exactly when the
field is absent or the empty string. -/
def truthyString : Option String → Bool
  | none => false
  | some s => !s.isEmpty

/-- JS truthiness of a possibly-absent array: any present array — including
`[]` — is truthy. -/
def truthyList {α : Type} : Option (List α) → Bool
  | none => false
  | some _ => true

/-- The required-field check `!recipe.title || !recipe.ingredients ||
!recipe.steps` (negated): true when every required field is truthy. -/
def validateRecipeFields (r : RecipeJson) : Bool :=
  truthyString r.title && truthyList r.ingredients && truthyList r.steps

/-- The tail of `generateRecipe` (ai.ts, lines 184-191): parse failure and
required-field failure are thrown, otherwise the recipe is returned. -/
def generateRecipeFinish (p : ParseResult) : Except String RecipeJson :=
  match p with
  | .fail msg => .error s!"Failed to parse AI response as JSON: {msg}"
  | .parsed r =>
    if validateRecipeFields r then .ok r
    else .error "AI response missing required fields"

/-- The tail of `extractRecipeFromUrl` (ai.ts, lines 263-270): same checks,
different failure message. -/
def extractRecipeFinish (p : ParseResult) : Except String RecipeJson :=
  match p with
  | .fail msg => .error s!"Failed to parse AI response as JSON: {msg}"
  | .parsed r =>
    if validateRecipeFields r then .ok r
    else .error "Failed to extract complete recipe from webpage"


theorem callLoop_congr (maxRetries : Nat) :
    ∀ (fuel attempt : Nat) (le : Option String) (out out2 : Nat → AttemptResult),
      (∀ i, i < attempt + fuel → out i = out2 i) →
      callLoop out maxRetries fuel attempt le =
        callLoop out2 maxRetries fuel attempt le := by
  intro fuel
  induction fuel with
  | zero =>
    intro attempt le out out2 _
    rfl
  | succ fuel ih =>
    intro attempt le out out2 h
    have h0 : out attempt = out2 attempt := h attempt (by omega)
    have hrec : ∀ le2, callLoop out maxRetries fuel (attempt + 1) le2
        = callLoop out2 maxRetries fuel (attempt + 1) le2 :=
      fun le2 => ih (attempt + 1) le2 out out2 (fun i hi => h i (by omega))
    simp only [callLoop, h0, hrec]

theorem callLoop_step0 (out : Nat → AttemptResult)
    (h0 : isFailure (out 0) = true) :
    callLoop out MAX_RETRIES 3 0 none =
      ((callLoop out MAX_RETRIES 2 1 (nextLastError none (out 0))).1,
       delayFor 0 (out 0) ::
         (callLoop out MAX_RETRIES 2 1 (nextLastError none (out 0))).2) := by
  cases ho : out 0 with
  | content body => simp [isFailure, ho] at h0
  | noContent => simp [callLoop, ho, nextLastError, delayFor]
  | httpError status msg =>
    by_cases hs : status = 429
    · simp [callLoop, ho, nextLastError, delayFor, hs]
    · simp [callLoop, ho, nextLastError, delayFor, hs]

theorem callLoop_step1 (out : Nat → AttemptResult) (le : Option String)
    (h1 : isFailure (out 1) = true) :
    callLoop out MAX_RETRIES 2 1 le =
      ((callLoop out MAX_RETRIES 1 2 (nextLastError le (out 1))).1,
       delayFor 1 (out 1) ::
         (callLoop out MAX_RETRIES 1 2 (nextLastError le (out 1))).2) := by
  cases ho : out 1 with
  | content body => simp [isFailure, ho] at h1
  | noContent => simp [callLoop, ho, nextLastError, delayFor]
  | httpError status msg =>
    by_cases hs : status = 429
    · simp [callLoop, ho, nextLastError, delayFor, hs]
    · simp [callLoop, ho, nextLastError, delayFor, hs]

theorem callLoop_last (out : Nat → AttemptResult) (le : Option String)
    (h2 : isFailure (out 2) = true) :
    callLoop out MAX_RETRIES 1 2 le =
      (.error
        s!"Failed to call OpenAI API after {MAX_RETRIES} attempts: {failureMsg (out 2)}",
       []) := by
  cases ho : out 2 with
  | content body => simp [isFailure, ho] at h2
  | noContent => simp [callLoop, ho, failureMsg, lastErrorMsg]
  | httpError status msg =>
    simp [callLoop, ho, failureMsg, lastErrorMsg]

/-- C5: every generation call attempts the upstream request at most three
times (the result depends only on attempts 0-2); when all three attempts
fail, the wrapper throws an error carrying the last underlying failure
message (in particular the "no content" message when a successful reply had
no content); a 429 with attempts remaining sleeps `RETRY_DELAY*(a+1)*2` — so
the second retry delay is twice the first — while any other failure sleeps
the linearly increasing `RETRY_DELAY*(a+1)`; and a JSON-parse failure or a
failed required-field check in `generateRecipe` is thrown. -/
theorem callOpenAI_retry_spec :
    (∀ out out2 : Nat → AttemptResult,
      (∀ i, i < MAX_RETRIES → out i = out2 i) →
      callOpenAI out = callOpenAI out2) ∧
    (∀ out : Nat → AttemptResult,
      isFailure (out 0) = true → isFailure (out 1) = true →
      isFailure (out 2) = true →
      callOpenAI out =
        (.error
          s!"Failed to call OpenAI API after {MAX_RETRIES} attempts: {failureMsg (out 2)}",
         [delayFor 0 (out 0), delayFor 1 (out 1)])) ∧
    (∀ (a : Nat) (msg : String),
      delayFor a (.httpError 429 msg) = RETRY_DELAY * (a + 1) * 2) ∧
    (∀ msg msg2 : String,
      delayFor 1 (.httpError 429 msg2) = 2 * delayFor 0 (.httpError 429 msg)) ∧
    (∀ (a : Nat) (r : AttemptResult), isFailure r = true →
      (∀ msg, r ≠ .httpError 429 msg) →
      delayFor a r = RETRY_DELAY * (a + 1)) ∧
    (∀ msg, generateRecipeFinish (.fail msg) =
      .error s!"Failed to parse AI response as JSON: {msg}") ∧
    (∀ r : RecipeJson, validateRecipeFields r = false →
      generateRecipeFinish (.parsed r) = .error "AI response missing required fields") := by
  refine ⟨?_, ?_, ?_, ?_, ?_, ?_, ?_⟩
  · intro out out2 h
    exact callLoop_congr MAX_RETRIES MAX_RETRIES 0 none out out2
      (fun i hi => h i (by simpa using hi))
  · intro out h0 h1 h2
    show callLoop out MAX_RETRIES 3 0 none = _
    rw [callLoop_step0 out h0, callLoop_step1 out _ h1, callLoop_last out _ h2]
  · intro a msg
    simp [delayFor]
  · intro msg msg2
    simp [delayFor, RETRY_DELAY]
  · intro a r hf hne
    cases r with
    | content body => simp [isFailure] at hf
    | noContent => rfl
    | httpError status msg =>
      have hs : status ≠ 429 := fun hh => hne msg (by rw [hh])
      simp [delayFor, hs]
  · intro msg
    rfl
  · intro r hv
    simp [generateRecipeFinish, hv]

theorem callOpenAI_retry_spec_witness :
    callOpenAI (fun _ => .httpError 500 "boom") =
      (.error "Failed to call OpenAI API after 3 attempts: OpenAI API error: 500 boom",
       [1000, 2000]) ∧
    callOpenAI (fun _ => .httpError 429 "rate") =
      (.error "Failed to call OpenAI API after 3 attempts: OpenAI API error: 429 rate",
       [2000, 4000]) := by
  constructor
  · exact (callOpenAI_retry_spec.2.1 (fun _ => .httpError 500 "boom")
      rfl rfl rfl).trans rfl
  · exact (callOpenAI_retry_spec.2.1 (fun _ => .httpError 429 "rate")
      rfl rfl rfl).trans rfl

/-- C10: the required-field validation only tests JS truthiness, so a reply
whose `title` is a non-empty string and whose `ingredients` and `steps` are
present but *empty arrays* passes the check; both `generateRecipe` and
`extractRecipeFromUrl` accept it and return a recipe with no ingredients and
no steps.  Conversely the check rejects exactly the replies with an absent
field or an empty-string title. -/
theorem emptyArrays_accepted :
    validateRecipeFields ⟨some "Tea", some [], some []⟩ = true ∧
    generateRecipeFinish (.parsed ⟨some "Tea", some [], some []⟩) =
      .ok ⟨some "Tea", some [], some []⟩ ∧
    extractRecipeFinish (.parsed ⟨some "Tea", some [], some []⟩) =
      .ok ⟨some "Tea", some [], some []⟩ ∧
    (∀ r : RecipeJson,
      generateRecipeFinish (.parsed r) = .ok r ↔ validateRecipeFields r = true) ∧
    (∀ r : RecipeJson, validateRecipeFields r = true ↔
      ((∃ t, r.title = some t ∧ t ≠ "") ∧
       (∃ l, r.ingredients = some l) ∧ (∃ l2, r.steps = some l2))) := by
  refine ⟨rfl, rfl, rfl, ?_, ?_⟩
  · intro r
    by_cases hv : validateRecipeFields r
    · simp [generateRecipeFinish, hv]
    · simp only [Bool.not_eq_true] at hv
      simp [generateRecipeFinish, hv]
  · intro r
    obtain ⟨t, i, st⟩ := r
    cases t with
    | none => simp [validateRecipeFields, truthyString]
    | some t0 =>
      cases i with
      | none => simp [validateRecipeFields, truthyString, truthyList]
      | some i0 =>
        cases st with
        | none => simp [validateRecipeFields, truthyString, truthyList]
        | some st0 =>
          constructor
          · intro hv
            refine ⟨⟨t0, rfl, ?_⟩, ⟨i0, rfl⟩, ⟨st0, rfl⟩⟩
            intro ht
            rw [ht] at hv
            have hfalse : validateRecipeFields ⟨some "", some i0, some st0⟩ = false := rfl
            exact absurd (hv.symm.trans hfalse) (by decide)
          · rintro ⟨⟨t, hteq, htne⟩, -, -⟩
            have ht : t0 = t := by simpa using hteq
            subst ht
            have hne : t0.isEmpty = false := by
              cases h : t0.isEmpty
              · rfl
              · exact absurd ((String.isEmpty_iff t0).mp h) htne
            simp [validateRecipeFields, truthyString, truthyList, hne]

theorem emptyArrays_accepted_witness :
    generateRecipeFinish (.parsed ⟨some "Tea", some [], some []⟩) =
      .ok ⟨some "Tea", some [], some []⟩ ∧
    ((⟨some "Tea", some [], some []⟩ : RecipeJson).ingredients = some [] ∧
     (⟨some "Tea", some [], some []⟩ : RecipeJson).steps = some []) := by
  refine ⟨?_, rfl, rfl⟩
  exact (emptyArrays_accepted.2.2.2.1 ⟨some "Tea", some [], some []⟩).mpr
    emptyArrays_accepted.1

/-! ## ai.ts: extractRecipeFromUrl text processing -/

/-- Case-insensitive pattern match at the head of the text: returns the
remainder when the text starts with `pat` (given lower-cased). -/
def dropHeadCI : List Char → List Char → Option (List Char)
  | [], cs => some cs
  | _ :: _, [] => none
  | p :: ps, c :: cs => if c.toLower = p then dropHeadCI ps cs else none

/-- Removal of the non-overlapping segments from a case-insensitive open
tag to the matching close tag: the model of the
`<script...</script>` and `<style...</style>` regex removals (`/gi`,
non-greedy).  `fuel` bounds the scan (one unit per step); the `Bool` is
"currently inside a block". -/
def removeBlocks (openTag closeTag : List Char) : Nat → Bool → List Char → List Char
  | 0, _, _ => []
  | _ + 1, _, [] => []
  | fuel + 1, false, c :: cs =>
    match dropHeadCI openTag (c :: cs) with
    | some rest => removeBlocks openTag closeTag fuel true rest
    | none => c :: removeBlocks openTag closeTag fuel false cs
  | fuel + 1, true, c :: cs =>
    match dropHeadCI closeTag (c :: cs) with
    | some rest => removeBlocks openTag closeTag fuel false rest
    | none => removeBlocks openTag closeTag fuel true cs

/-- `.replace(/<[^>]+>/g, " ")`: every `<...>` tag becomes one space. -/
def stripTagsAux : Bool → List Char → List Char
  | _, [] => []
  | false, c :: cs =>
    if c = '<' then stripTagsAux true cs else c :: stripTagsAux false cs
  | true, c :: cs =>
    if c = '>' then ' ' :: stripTagsAux false cs else stripTagsAux true cs

/-- `.replace(/\s+/g, " ")`: every whitespace run becomes one space. -/
def collapseWsAux : Bool → List Char → List Char
  | _, [] => []
  | inWs, c :: cs =>
    if c.isWhitespace then
      if inWs then collapseWsAux true cs else ' ' :: collapseWsAux true cs
    else c :: collapseWsAux false cs

/-- The text-content pipeline of `extractRecipeFromUrl` (ai.ts, lines
222-228): strip script blocks, style blocks and remaining tags, collapse
whitespace, trim, and truncate with `.substring(0, 50000)`.  This is the
text embedded into the user prompt submitted to the AI provider. -/
def extractTextContent (html : String) : String :=
  let cs0 := html.data
  let cs1 := removeBlocks "<script".data "</script>".data (cs0.length + 1) false cs0
  let cs2 := removeBlocks "<style".data "</style>".data (cs1.length + 1) false cs1
  let cs3 := stripTagsAux false cs2
  let cs4 := collapseWsAux false cs3
  String.mk ((jsTrim (String.mk cs4)).data.take 50000)

/-- C8: for every fetched webpage, the processed text submitted to the AI
provider is truncated to at most 50,000 characters. -/
theorem extractTextContent_bounded (html : String) :
    (extractTextContent html).length ≤ 50000 := by
  show (String.mk ((jsTrim (String.mk _)).data.take 50000)).length ≤ 50000
  show ((jsTrim (String.mk _)).data.take 50000).length ≤ 50000
  rw [List.length_take]
  exact Nat.min_le_left _ _
